import Mathlib

/-!
Verification of the concurrent track-acquisition subsystem of
`data_tools/musify_downloader.py`: the filename sanitizer, catalog search
client, download-link resolver, file fetcher, pre-scan planner and the two
concurrency orchestrators, shallowly embedded as pure functions over
explicit disk states and a fixed assignment of external responses.
-/

/-- Strings are modelled as lists of characters. -/
abbrev Str := List Char

/-- Python `str.lower()` (ASCII case folding in this model). -/
def lowerStr (s : Str) : Str := s.map Char.toLower

/-- Python regular-expression class `\s` (the ASCII whitespace characters
in this model). -/
def isPySpace (c : Char) : Bool :=
  c == ' ' || c == '\t' || c == '\n' || c == '\r' || c == '\x0b' || c == '\x0c'

/-- The characters removed by `sanitize_filename` (regex `[<>:"/\\|?*]`,
line 49). -/
def illegalChars : Str := ['<', '>', ':', '"', '/', '\\', '|', '?', '*']

/-- Membership in the removed character class. -/
def isIllegalChar (c : Char) : Bool := illegalChars.contains c

/-- First substitution of `sanitize_filename`: drop the illegal characters. -/
def removeIllegal (s : Str) : Str := s.filter (fun c => !(isIllegalChar c))

/-- Second substitution of `sanitize_filename` (`re.sub(r'\s+', ' ', _)`,
line 50): each maximal whitespace run becomes a single space.  The boolean
argument records whether the previous character belonged to a whitespace
run. -/
def collapseGo : Bool → Str → Str
  | _, [] => []
  | prevWs, c :: cs =>
    if isPySpace c then
      if prevWs then collapseGo true cs else ' ' :: collapseGo true cs
    else c :: collapseGo false cs

/-- Trailing half of Python `str.strip()`: drop the trailing whitespace run. -/
def dropTrailingWs : Str → Str
  | [] => []
  | c :: cs =>
    match dropTrailingWs cs with
    | [] => if isPySpace c then [] else [c]
    | x :: xs => c :: x :: xs

/-- Python `str.strip()`: drop the leading and the trailing whitespace run. -/
def stripWs (s : Str) : Str := dropTrailingWs (s.dropWhile isPySpace)

/-- `FastMusifyDownloader.sanitize_filename` (lines 47-51), identical to
`AsyncMusifyDownloader.sanitize_filename` (lines 245-249): remove illegal
path characters, collapse whitespace runs to single spaces, strip both
ends.  The `lru_cache` memoization is semantically transparent for a pure
function and is not modelled. -/
def sanitize_filename (s : Str) : Str := stripWs (collapseGo false (removeIllegal s))

/-- Holds when the first character, if any, is not whitespace. -/
def headNotWs : Str → Bool
  | [] => true
  | c :: _ => !(isPySpace c)

/-- Holds when the last character, if any, is not whitespace. -/
def lastNotWs : Str → Bool
  | [] => true
  | [c] => !(isPySpace c)
  | _ :: c :: cs => lastNotWs (c :: cs)

/-- Holds when no two adjacent characters are both whitespace. -/
def noAdjacentWs : Str → Bool
  | [] => true
  | [_] => true
  | a :: b :: rest => (!(isPySpace a && isPySpace b)) && noAdjacentWs (b :: rest)

/-- Well-formedness of a sanitized name: no illegal character, every
whitespace character is a plain space, no two adjacent whitespace
characters, and no leading or trailing whitespace. -/
def sanitizedShape (s : Str) : Bool :=
  s.all (fun c => !(isIllegalChar c)) &&
  s.all (fun c => !(isPySpace c) || c == ' ') &&
  noAdjacentWs s && headNotWs s && lastNotWs s

/-- Containment of `pat` as a contiguous subsequence of `s`, modelling the
Python substring test `pat in s`. -/
def containsSub (pat : Str) : Str → Bool
  | [] => pat.isEmpty
  | c :: rest => pat.isPrefixOf (c :: rest) || containsSub pat rest

/-- Parsed `<a>` element: link target and visible text
(`get_text(separator=" ", strip=True)`). -/
structure Anchor where
  href : Str
  text : Str
deriving DecidableEq

/-- The fixed catalog host (line 21). -/
def base_url : Str := "https://musify.club".toList

/-- Absolutization of a link target (lines 69, 74, 102):
`base_url + href if not href.startswith('http') else href`. -/
def linkUrl (href : Str) : Str :=
  if ("http".toList).isPrefixOf href then href else base_url ++ href

/-- The anchors kept by `find_all('a', href=lambda x: x and '/track/' in x)`
(line 64): link target contains the track-path marker. -/
def trackLinks (anchors : List Anchor) : List Anchor :=
  anchors.filter (fun a => containsSub ("/track/".toList) a.href)

/-- Preference test of lines 66-67: the anchor's visible text contains both
the artist and the title as case-insensitive substrings. -/
def anchorTextMatches (artist song_title : Str) (a : Anchor) : Bool :=
  containsSub (lowerStr artist) (lowerStr a.text) &&
  containsSub (lowerStr song_title) (lowerStr a.text)

/-- `FastMusifyDownloader.search_track` (lines 53-82).  The HTTP layer is
abstracted: `resp` is the parsed list of anchors of the response, `none`
standing for a failed request (exception / non-2xx, the `except` branch).
The first anchor whose text matches both artist and title wins; otherwise
the first track anchor in document order; otherwise `NotFound`.  The
process-lifetime cache (lines 54-56) is transparent for a fixed response
assignment and is not modelled. -/
def search_track (artist song_title : Str) (resp : Option (List Anchor)) : Option Str :=
  match resp with
  | none => none
  | some anchors =>
    match (trackLinks anchors).find? (anchorTextMatches artist song_title) with
    | some l => some (linkUrl l.href)
    | none =>
      match trackLinks anchors with
      | [] => none
      | l :: _ => some (linkUrl l.href)

/-- Element scanned by `get_download_link`: optional link target and
visible text. -/
structure Elem where
  href : Option Str
  text : Str
deriving DecidableEq

/-- Download-intent keywords of line 101. -/
def downloadKeywords : List Str := ["скачать".toList, "download".toList, "mp3".toList]

/-- Acceptance test of lines 99-103: the element has a non-empty link
target and its lowercased text contains one of the keywords. -/
def elemAccept (e : Elem) : Option Str :=
  match e.href with
  | none => none
  | some h =>
    if (!h.isEmpty) && downloadKeywords.any (fun kw => containsSub kw (lowerStr e.text)) then
      some (linkUrl h)
    else none

/-- `FastMusifyDownloader.get_download_link` (lines 84-107).  The detail
page is abstracted as the element groups yielded by the fixed selector
list, in selector priority order; `none` stands for a failed request.
The first accepted element wins. -/
def get_download_link (page : Option (List (List Elem))) : Option Str :=
  match page with
  | none => none
  | some groups => groups.flatten.findSome? elemAccept

/-- Outcome of streaming a response body to disk. -/
inductive StreamBody where
  | complete (size : Nat)
  | interrupted (partialSize : Nat)
deriving DecidableEq

/-- Outcome of the download request itself: an exception before any write
(`reqError`), or a response with a content-type header and a body. -/
inductive FetchOutcome where
  | reqError
  | response (content_type : Str) (body : StreamBody)
deriving DecidableEq

/-- Test of line 118: `'html' in content_type` after lowercasing. -/
def containsHtml (ct : Str) : Bool := containsSub ("html".toList) (lowerStr ct)

/-- `FastMusifyDownloader.download_file_sync` (lines 109-137).  `prior` is
the file (size) present at the destination before the call, the result is
the success flag together with the file finally at the destination
(`none` = no file).  An HTML content-type returns `False` before writing,
leaving the prior file untouched; a completed stream below `50 * 1024`
bytes is removed; any exception removes whatever is at the path. -/
def download_file_sync (prior : Option Nat) (o : FetchOutcome) : Bool × Option Nat :=
  match o with
  | .reqError => (false, none)
  | .response ct body =>
    if containsHtml ct then (false, prior)
    else
      match body with
      | .interrupted _ => (false, none)
      | .complete n => if n < 50 * 1024 then (false, none) else (true, some n)

/-- A destination path, as the triple of sanitized path components below
the download root: artist folder, album folder, file name. -/
abbrev DiskPath := Str × Str × Str

/-- The filesystem state at the download root: size of the file at each
path, if one exists. -/
abbrev Disk := DiskPath → Option Nat

/-- Validity test `os.path.exists(p) and os.path.getsize(p) > 50 * 1024`
(lines 144, 207, 373, 466) applied to a stored size. -/
def validSize : Option Nat → Bool
  | none => false
  | some n => decide (50 * 1024 < n)

/-- Validity of the file at path `p` of disk `d`. -/
def isValidOnDisk (d : Disk) (p : DiskPath) : Bool := validSize (d p)

/-- Sanitized file name of a song: `sanitize_filename(f"{song}.mp3")`. -/
def mp3Name (song : Str) : Str := sanitize_filename (song ++ (".mp3".toList))

/-- Destination path of a track (lines 142-143, 168-169):
`<sanitized artist>/<sanitized album>/<sanitized song>.mp3`. -/
def trackPath (artist album_name song : Str) : DiskPath :=
  (sanitize_filename artist, sanitize_filename album_name, mp3Name song)

/-- One work item of the catalog: album name, artist, ordered track list. -/
structure Album where
  name : Str
  artist : Str
  songs : List Str
deriving DecidableEq

/-- Fixed assignment of external responses: parsed search response per
(artist, title), parsed detail page per track url, fetch outcome per
download url. -/
structure Backend where
  search : Str → Str → Option (List Anchor)
  page : Str → Option (List (List Elem))
  fetch : Str → FetchOutcome

/-- `FastMusifyDownloader.pre_scan_existing_files` (lines 190-221),
identical to `pre_scan_existing_files_async` (lines 447-480): drop every
track already valid on disk, drop albums left with no track, and return
the remaining list together with `total - existing`. -/
def pre_scan_existing_files (d : Disk) (albums : List Album) : List Album × Nat :=
  let reduced := albums.filterMap (fun a =>
    let rem := a.songs.filter (fun s => !(isValidOnDisk d (trackPath a.artist a.name s)))
    if rem.isEmpty then none else some { name := a.name, artist := a.artist, songs := rem })
  let total := (albums.map (fun a => a.songs.length)).sum
  let valid := (albums.map (fun a =>
    a.songs.countP (fun s => isValidOnDisk d (trackPath a.artist a.name s)))).sum
  (reduced, total - valid)

/-- `FastMusifyDownloader.download_single_track` (lines 139-160): skip when
a valid file already exists, else Search, Resolve, Fetch, updating the
destination path with the fetch result. -/
def download_single_track (b : Backend) (d : Disk) (artist album_name song : Str) :
    Bool × Disk :=
  let file_path := trackPath artist album_name song
  if isValidOnDisk d file_path then (true, d)
  else
    match search_track artist song (b.search artist song) with
    | none => (false, d)
    | some track_url =>
      match get_download_link (b.page track_url) with
      | none => (false, d)
      | some download_url =>
        let r := download_file_sync (d file_path) (b.fetch download_url)
        (r.1, fun q => if q = file_path then r.2 else d q)

/-- The per-track unit results of one album batch, in scheduling order,
together with the final disk; `Except.error` stands for an exception
escaping a unit (the model's units are total, so injected errors model
line 184 / line 418 situations). -/
def run_track_units (track : Disk → Str → Bool × Disk) (d : Disk) :
    List Str → List (Except Unit (Bool × Str)) × Disk
  | [] => ([], d)
  | s :: ss =>
    let r := track d s
    let rest := run_track_units track r.2 ss
    (Except.ok (r.1, s) :: rest.1, rest.2)

/-- One iteration of the result-collection loop of
`download_album_tracks_concurrent` (lines 177-186): a unit result counts
one success when `True`, one failure when `False` or when retrieving it
raised. -/
def tallyStepSync (acc : Nat × Nat) (r : Except Unit (Bool × Str)) : Nat × Nat :=
  match r with
  | Except.ok (true, _) => (acc.1 + 1, acc.2)
  | Except.ok (false, _) => (acc.1, acc.2 + 1)
  | Except.error _ => (acc.1, acc.2 + 1)

/-- Result-collection loop of `download_album_tracks_concurrent`
(lines 177-186). -/
def tally_results_sync (rs : List (Except Unit (Bool × Str))) : Nat × Nat :=
  rs.foldl tallyStepSync (0, 0)

/-- One iteration of the result loop of `download_album_tracks_async`
(lines 417-429): an exception from `gather` counts one failure, a
`(success, song)` pair counts by its flag. -/
def tallyStepAsync (acc : Nat × Nat) (r : Except Unit (Bool × Str)) : Nat × Nat :=
  match r with
  | Except.error _ => (acc.1, acc.2 + 1)
  | Except.ok (true, _) => (acc.1 + 1, acc.2)
  | Except.ok (false, _) => (acc.1, acc.2 + 1)

/-- Result loop of `download_album_tracks_async` (lines 417-429). -/
def tally_results_async (rs : List (Except Unit (Bool × Str))) : Nat × Nat :=
  rs.foldl tallyStepAsync (0, 0)

/-- `FastMusifyDownloader.download_album_tracks_concurrent` (lines 162-188):
run every track unit of the album and tally the results. -/
def download_album_tracks_concurrent (b : Backend) (d : Disk) (a : Album) :
    (Nat × Nat) × Disk :=
  let units := run_track_units (fun d' s => download_single_track b d' a.artist a.name s)
    d a.songs
  (tally_results_sync units.1, units.2)

/-- Album loop of `sync_main` (lines 548-563): pre-scan, then process the
remaining albums in order, accumulating the global tally. -/
def sync_main_run (b : Backend) (d : Disk) (albums : List Album) : (Nat × Nat) × Disk :=
  ((pre_scan_existing_files d albums).1).foldl (fun acc a =>
    let r := download_album_tracks_concurrent b acc.2 a
    ((acc.1.1 + r.1.1, acc.1.2 + r.1.2), r.2)) ((0, 0), d)

/-- `AsyncMusifyDownloader.search_track_async` (lines 264-296): same
policy as the thread-parallel client. -/
def search_track_async (artist song_title : Str) (resp : Option (List Anchor)) : Option Str :=
  match resp with
  | none => none
  | some anchors =>
    match (trackLinks anchors).find? (anchorTextMatches artist song_title) with
    | some l => some (linkUrl l.href)
    | none =>
      match trackLinks anchors with
      | [] => none
      | l :: _ => some (linkUrl l.href)

/-- `AsyncMusifyDownloader.get_download_link_async` (lines 298-318). -/
def get_download_link_async (page : Option (List (List Elem))) : Option Str :=
  match page with
  | none => none
  | some groups => groups.flatten.findSome? elemAccept

/-- `AsyncMusifyDownloader.download_file_async` (lines 320-362): same
content-type check, size threshold and cleanup as the sync fetcher. -/
def download_file_async (prior : Option Nat) (o : FetchOutcome) : Bool × Option Nat :=
  match o with
  | .reqError => (false, none)
  | .response ct body =>
    if containsHtml ct then (false, prior)
    else
      match body with
      | .interrupted _ => (false, none)
      | .complete n => if n < 50 * 1024 then (false, none) else (true, some n)

/-- `AsyncMusifyDownloader.download_single_track_async` (lines 364-392). -/
def download_single_track_async (b : Backend) (d : Disk) (artist album_name song : Str) :
    Bool × Disk :=
  let file_path := trackPath artist album_name song
  if isValidOnDisk d file_path then (true, d)
  else
    match search_track_async artist song (b.search artist song) with
    | none => (false, d)
    | some track_url =>
      match get_download_link_async (b.page track_url) with
      | none => (false, d)
      | some download_url =>
        let r := download_file_async (d file_path) (b.fetch download_url)
        (r.1, fun q => if q = file_path then r.2 else d q)

/-- `AsyncMusifyDownloader.download_album_tracks_async` (lines 394-432):
gather every track unit of the album (results in task order) and tally. -/
def download_album_tracks_async (b : Backend) (d : Disk) (a : Album) :
    (Nat × Nat) × Disk :=
  let units := run_track_units (fun d' s => download_single_track_async b d' a.artist a.name s)
    d a.songs
  (tally_results_async units.1, units.2)

/-- `AsyncMusifyDownloader.pre_scan_existing_files_async` (lines 447-480). -/
def pre_scan_existing_files_async (d : Disk) (albums : List Album) : List Album × Nat :=
  let reduced := albums.filterMap (fun a =>
    let rem := a.songs.filter (fun s => !(isValidOnDisk d (trackPath a.artist a.name s)))
    if rem.isEmpty then none else some { name := a.name, artist := a.artist, songs := rem })
  let total := (albums.map (fun a => a.songs.length)).sum
  let valid := (albums.map (fun a =>
    a.songs.countP (fun s => isValidOnDisk d (trackPath a.artist a.name s)))).sum
  (reduced, total - valid)

/-- `AsyncMusifyDownloader.process_all_albums_async` (lines 434-445):
albums processed sequentially, global tally accumulated. -/
def process_all_albums_async (b : Backend) (d : Disk) (w : List Album) : (Nat × Nat) × Disk :=
  w.foldl (fun acc a =>
    let r := download_album_tracks_async b acc.2 a
    ((acc.1.1 + r.1.1, acc.1.2 + r.1.2), r.2)) ((0, 0), d)

/-- `async_main` (lines 505-537): pre-scan, then process the remaining
albums. -/
def async_main_run (b : Backend) (d : Disk) (albums : List Album) : (Nat × Nat) × Disk :=
  process_all_albums_async b d (pre_scan_existing_files_async d albums).1

/-- The two concurrency bounds of `AsyncMusifyDownloader`. -/
structure AsyncConfig where
  max_concurrent_downloads : Nat
  max_concurrent_requests : Nat
deriving DecidableEq

/-- Constructor defaults of `AsyncMusifyDownloader.__init__` (line 225). -/
def asyncInitDefaults : AsyncConfig :=
  { max_concurrent_downloads := 10, max_concurrent_requests := 10 }

/-- The configuration constructed in `async_main` (line 513):
`max_concurrent_downloads=10, max_concurrent_requests=5`. -/
def async_main_config : AsyncConfig :=
  { max_concurrent_downloads := 10, max_concurrent_requests := 5 }

/-- Acquire/release events of the two semaphores (lines 230-231):
`request_semaphore` guards every search/resolve request (line 253),
`download_semaphore` guards every file download (line 327). -/
inductive SemEvent where
  | acqReq
  | relReq
  | acqDl
  | relDl
deriving DecidableEq

/-- Counts of simultaneously in-flight guarded sections. -/
structure SemState where
  reqInFlight : Nat
  dlInFlight : Nat
deriving DecidableEq

/-- Semantics of the two `asyncio.Semaphore`s: an acquire is enabled only
while the corresponding in-flight count is below its bound, a release only
while it is positive; the two counters never interact. -/
def semStep (cfg : AsyncConfig) (s : SemState) : SemEvent → Option SemState
  | .acqReq =>
    if s.reqInFlight < cfg.max_concurrent_requests then
      some { s with reqInFlight := s.reqInFlight + 1 }
    else none
  | .relReq =>
    match s.reqInFlight with
    | 0 => none
    | n + 1 => some { s with reqInFlight := n }
  | .acqDl =>
    if s.dlInFlight < cfg.max_concurrent_downloads then
      some { s with dlInFlight := s.dlInFlight + 1 }
    else none
  | .relDl =>
    match s.dlInFlight with
    | 0 => none
    | n + 1 => some { s with dlInFlight := n }

/-- Run of an event sequence from a state; `none` when some event was not
enabled. -/
def runSem (cfg : AsyncConfig) (s : SemState) : List SemEvent → Option SemState
  | [] => some s
  | e :: es =>
    match semStep cfg s e with
    | none => none
    | some s' => runSem cfg s' es

/-- Run of an event sequence from the idle initial state. -/
def semRun (cfg : AsyncConfig) (es : List SemEvent) : Option SemState :=
  runSem cfg { reqInFlight := 0, dlInFlight := 0 } es

/-- A scheduled track unit: the artist, album and song determining its
destination path and its backend responses. -/
structure TrackRef where
  artist : Str
  album : Str
  song : Str
deriving DecidableEq

/-- Destination path of a track unit. -/
def TrackRef.path (t : TrackRef) : DiskPath := trackPath t.artist t.album t.song

/-- All track units of a catalog, in scheduling order. -/
def allTracks (albums : List Album) : List TrackRef :=
  albums.flatMap (fun a => a.songs.map (fun s => { artist := a.artist, album := a.name, song := s }))

/-- Effect of one track unit on the value stored at its own destination
path: skip when valid, else the Search, Resolve, Fetch chain. -/
def chainF (b : Backend) (t : TrackRef) (v : Option Nat) : Option Nat :=
  if validSize v then v
  else
    match search_track t.artist t.song (b.search t.artist t.song) with
    | none => v
    | some track_url =>
      match get_download_link (b.page track_url) with
      | none => v
      | some download_url => (download_file_sync v (b.fetch download_url)).2

/-- Disk effect of one track unit. -/
def stepDisk (b : Backend) (d : Disk) (t : TrackRef) : Disk :=
  (download_single_track b d t.artist t.album t.song).2

/-- Disk after running a list of track units in order. -/
def runTracks (b : Backend) (d : Disk) (ts : List TrackRef) : Disk :=
  ts.foldl (stepDisk b) d

/-- Value at one path after the per-path effects of a list of track units. -/
def foldFAt (b : Backend) (l : List TrackRef) (v : Option Nat) : Option Nat :=
  l.foldl (fun v' t => chainF b t v') v

/-- The track units of a list whose destination is the path `p`. -/
def tracksAt (p : DiskPath) (ts : List TrackRef) : List TrackRef :=
  ts.filter (fun t => decide (t.path = p))


/-! Sanitizer lemmas. -/

lemma noAdjacentWs_tail {a : Char} {l : Str} (h : noAdjacentWs (a :: l) = true) :
    noAdjacentWs l = true := by
  cases l with
  | nil => rfl
  | cons b r =>
    simp only [noAdjacentWs, Bool.and_eq_true] at h
    exact h.2

lemma noAdjacentWs_cons_of_headNotWs {a : Char} {l : Str}
    (h1 : headNotWs l = true) (h2 : noAdjacentWs l = true) :
    noAdjacentWs (a :: l) = true := by
  cases l with
  | nil => rfl
  | cons b r =>
    simp only [headNotWs, Bool.not_eq_true'] at h1
    simp only [noAdjacentWs, Bool.and_eq_true]
    exact ⟨by simp [h1], h2⟩

lemma noAdjacentWs_cons_of_not_ws {a : Char} {l : Str}
    (h1 : isPySpace a = false) (h2 : noAdjacentWs l = true) :
    noAdjacentWs (a :: l) = true := by
  cases l with
  | nil => rfl
  | cons b r =>
    simp only [noAdjacentWs, Bool.and_eq_true]
    exact ⟨by simp [h1], h2⟩

lemma headNotWs_of_noAdjacentWs_ws {c : Char} {l : Str}
    (h : noAdjacentWs (c :: l) = true) (hc : isPySpace c = true) :
    headNotWs l = true := by
  cases l with
  | nil => rfl
  | cons b r =>
    simp only [noAdjacentWs, Bool.and_eq_true] at h
    have h1 := h.1
    simp only [hc, Bool.true_and] at h1
    simpa [headNotWs] using h1

lemma removeIllegal_all (s : Str) :
    (removeIllegal s).all (fun c => !(isIllegalChar c)) = true := by
  simp only [removeIllegal, List.all_eq_true]
  intro c hc
  exact (List.mem_filter.mp hc).2

lemma collapseGo_all (p : Char → Bool) (hsp : p ' ' = true) :
    ∀ (s : Str) (b : Bool), s.all p = true → (collapseGo b s).all p = true := by
  intro s
  induction s with
  | nil => intro b _; rfl
  | cons c cs ih =>
    intro b h
    simp only [List.all_cons, Bool.and_eq_true] at h
    cases hc : isPySpace c with
    | true =>
      cases b with
      | true => simpa [collapseGo, hc] using ih true h.2
      | false =>
        simp only [collapseGo, hc, if_true]
        simp only [Bool.false_eq_true, if_false, List.all_cons, hsp, Bool.true_and]
        exact ih true h.2
    | false =>
      simp only [collapseGo, hc, Bool.false_eq_true, if_false, List.all_cons, h.1,
        Bool.true_and]
      exact ih false h.2

lemma collapseGo_ws_blank :
    ∀ (s : Str) (b : Bool),
      (collapseGo b s).all (fun c => !(isPySpace c) || c == ' ') = true := by
  intro s
  induction s with
  | nil => intro b; rfl
  | cons c cs ih =>
    intro b
    cases hc : isPySpace c with
    | true =>
      cases b with
      | true => simpa [collapseGo, hc] using ih true
      | false =>
        simp only [collapseGo, hc, if_true, Bool.false_eq_true, if_false, List.all_cons]
        have hb : (!(isPySpace ' ') || ' ' == ' ') = true := by decide
        simp only [hb, Bool.true_and]
        exact ih true
    | false =>
      simp only [collapseGo, hc, Bool.false_eq_true, if_false, List.all_cons,
        Bool.not_false, Bool.true_or, Bool.true_and]
      exact ih false

lemma collapseGo_true_headNotWs (s : Str) : headNotWs (collapseGo true s) = true := by
  induction s with
  | nil => rfl
  | cons c cs ih =>
    cases hc : isPySpace c with
    | true => simpa [collapseGo, hc] using ih
    | false => simp [collapseGo, hc, headNotWs]

lemma collapseGo_noAdjacentWs :
    ∀ (s : Str) (b : Bool), noAdjacentWs (collapseGo b s) = true := by
  intro s
  induction s with
  | nil => intro b; rfl
  | cons c cs ih =>
    intro b
    cases hc : isPySpace c with
    | true =>
      cases b with
      | true => simpa [collapseGo, hc] using ih true
      | false =>
        simp only [collapseGo, hc, if_true, Bool.false_eq_true, if_false]
        exact noAdjacentWs_cons_of_headNotWs (collapseGo_true_headNotWs cs) (ih true)
    | false =>
      simp only [collapseGo, hc, Bool.false_eq_true, if_false]
      exact noAdjacentWs_cons_of_not_ws hc (ih false)

lemma headNotWs_dropWhile (s : Str) : headNotWs (s.dropWhile isPySpace) = true := by
  induction s with
  | nil => rfl
  | cons c cs ih =>
    cases hc : isPySpace c with
    | true => simpa [List.dropWhile_cons, hc] using ih
    | false => simp [List.dropWhile_cons, hc, headNotWs]

lemma all_dropWhile (p q : Char → Bool) (s : Str) (h : s.all p = true) :
    (s.dropWhile q).all p = true := by
  induction s with
  | nil => rfl
  | cons c cs ih =>
    simp only [List.all_cons, Bool.and_eq_true] at h
    cases hc : q c with
    | true => simpa [List.dropWhile_cons, hc] using ih h.2
    | false => simp [List.dropWhile_cons, hc, List.all_cons, h.1, h.2]

lemma noAdjacentWs_dropWhile (q : Char → Bool) (s : Str) (h : noAdjacentWs s = true) :
    noAdjacentWs (s.dropWhile q) = true := by
  induction s with
  | nil => rfl
  | cons c cs ih =>
    cases hc : q c with
    | true => simpa [List.dropWhile_cons, hc] using ih (noAdjacentWs_tail h)
    | false => simpa [List.dropWhile_cons, hc] using h

lemma dropWhile_id_of_headNotWs (s : Str) (h : headNotWs s = true) :
    s.dropWhile isPySpace = s := by
  cases s with
  | nil => rfl
  | cons c cs =>
    simp only [headNotWs, Bool.not_eq_true'] at h
    simp [List.dropWhile_cons, h]

lemma dropTrailingWs_append (s : Str) : ∃ l', s = dropTrailingWs s ++ l' := by
  induction s with
  | nil => exact ⟨[], rfl⟩
  | cons c cs ih =>
    cases h : dropTrailingWs cs with
    | nil =>
      cases hc : isPySpace c with
      | true => exact ⟨c :: cs, by simp [dropTrailingWs, h, hc]⟩
      | false =>
        refine ⟨cs, ?_⟩
        simp [dropTrailingWs, h, hc]
    | cons x xs =>
      obtain ⟨l', hl⟩ := ih
      rw [h] at hl
      refine ⟨l', ?_⟩
      have hstep : dropTrailingWs (c :: cs) = c :: x :: xs := by
        show (match dropTrailingWs cs with
          | [] => if isPySpace c = true then [] else [c]
          | x :: xs => c :: x :: xs) = c :: x :: xs
        rw [h]
      rw [hstep]
      simpa using hl

lemma noAdjacentWs_append_left {l1 l2 : Str} (h : noAdjacentWs (l1 ++ l2) = true) :
    noAdjacentWs l1 = true := by
  induction l1 with
  | nil => rfl
  | cons a r ih =>
    cases r with
    | nil => rfl
    | cons b r' =>
      simp only [List.cons_append, noAdjacentWs, Bool.and_eq_true] at h ⊢
      refine ⟨h.1, ?_⟩
      have := ih (by simpa [List.cons_append] using h.2)
      exact this

lemma all_dropTrailingWs (p : Char → Bool) (s : Str) (h : s.all p = true) :
    (dropTrailingWs s).all p = true := by
  obtain ⟨l', hl⟩ := dropTrailingWs_append s
  rw [hl, List.all_append, Bool.and_eq_true] at h
  exact h.1

lemma noAdjacentWs_dropTrailingWs (s : Str) (h : noAdjacentWs s = true) :
    noAdjacentWs (dropTrailingWs s) = true := by
  obtain ⟨l', hl⟩ := dropTrailingWs_append s
  rw [hl] at h
  exact noAdjacentWs_append_left h

lemma headNotWs_dropTrailingWs (s : Str) (h : headNotWs s = true) :
    headNotWs (dropTrailingWs s) = true := by
  obtain ⟨l', hl⟩ := dropTrailingWs_append s
  cases hd : dropTrailingWs s with
  | nil => rfl
  | cons c r =>
    rw [hd] at hl
    rw [hl] at h
    simpa [headNotWs] using h

lemma lastNotWs_dropTrailingWs (s : Str) : lastNotWs (dropTrailingWs s) = true := by
  induction s with
  | nil => rfl
  | cons c cs ih =>
    cases h : dropTrailingWs cs with
    | nil =>
      cases hc : isPySpace c with
      | true => simp [dropTrailingWs, h, hc, lastNotWs]
      | false => simp [dropTrailingWs, h, hc, lastNotWs]
    | cons x xs =>
      rw [h] at ih
      have hstep : dropTrailingWs (c :: cs) = c :: x :: xs := by
        show (match dropTrailingWs cs with
          | [] => if isPySpace c = true then [] else [c]
          | x :: xs => c :: x :: xs) = c :: x :: xs
        rw [h]
      rw [hstep]
      simpa [lastNotWs] using ih

lemma dropTrailingWs_id (s : Str) (h : lastNotWs s = true) : dropTrailingWs s = s := by
  induction s with
  | nil => rfl
  | cons c cs ih =>
    cases cs with
    | nil =>
      simp only [lastNotWs, Bool.not_eq_true'] at h
      simp [dropTrailingWs, h]
    | cons y ys =>
      have h' : lastNotWs (y :: ys) = true := by simpa [lastNotWs] using h
      have hys := ih h'
      show (match dropTrailingWs (y :: ys) with
        | [] => if isPySpace c = true then [] else [c]
        | x :: xs => c :: x :: xs) = c :: y :: ys
      rw [hys]

lemma collapseGo_id (s : Str)
    (h1 : s.all (fun c => !(isPySpace c) || c == ' ') = true)
    (h2 : noAdjacentWs s = true) :
    collapseGo false s = s ∧ (headNotWs s = true → collapseGo true s = s) := by
  induction s with
  | nil => exact ⟨rfl, fun _ => rfl⟩
  | cons c cs ih =>
    simp only [List.all_cons, Bool.and_eq_true] at h1
    have ihs := ih h1.2 (noAdjacentWs_tail h2)
    cases hc : isPySpace c with
    | true =>
      have hcs : c = ' ' := by
        have := h1.1
        simp only [hc, Bool.not_true, Bool.false_or, beq_iff_eq] at this
        exact this
      have hhead : headNotWs cs = true := headNotWs_of_noAdjacentWs_ws h2 hc
      constructor
      · simp only [collapseGo, hc, if_true, Bool.false_eq_true, if_false]
        rw [ihs.2 hhead, hcs]
      · intro hh
        simp only [headNotWs, hc] at hh
        exact absurd hh (by simp)
    | false =>
      constructor
      · simp only [collapseGo, hc, Bool.false_eq_true, if_false]
        rw [ihs.1]
      · intro _
        simp only [collapseGo, hc, Bool.false_eq_true, if_false]
        rw [ihs.1]


/-- Claim C9: for every input string the sanitizer output contains none of
the characters removed by the regex class, every whitespace character of
the output is a single plain space with no whitespace adjacency and no
leading or trailing whitespace, and applying the sanitizer twice yields
the same result as applying it once. -/
theorem C9_sanitizer_properties (s : Str) :
    sanitizedShape (sanitize_filename s) = true ∧
    sanitize_filename (sanitize_filename s) = sanitize_filename s := by
  have hill : (sanitize_filename s).all (fun c => !(isIllegalChar c)) = true := by
    unfold sanitize_filename stripWs
    exact all_dropTrailingWs _ _ (all_dropWhile _ _ _
      (collapseGo_all _ (by decide) _ false (removeIllegal_all s)))
  have hblank : (sanitize_filename s).all (fun c => !(isPySpace c) || c == ' ') = true := by
    unfold sanitize_filename stripWs
    exact all_dropTrailingWs _ _ (all_dropWhile _ _ _ (collapseGo_ws_blank _ false))
  have hnadj : noAdjacentWs (sanitize_filename s) = true := by
    unfold sanitize_filename stripWs
    exact noAdjacentWs_dropTrailingWs _ (noAdjacentWs_dropWhile _ _
      (collapseGo_noAdjacentWs _ false))
  have hhead : headNotWs (sanitize_filename s) = true := by
    unfold sanitize_filename stripWs
    exact headNotWs_dropTrailingWs _ (headNotWs_dropWhile _)
  have hlast : lastNotWs (sanitize_filename s) = true := by
    unfold sanitize_filename stripWs
    exact lastNotWs_dropTrailingWs _
  refine ⟨?_, ?_⟩
  · simp [sanitizedShape, hill, hblank, hnadj, hhead, hlast]
  · have hri : removeIllegal (sanitize_filename s) = sanitize_filename s := by
      apply List.filter_eq_self.mpr
      intro a ha
      exact List.all_eq_true.mp hill a ha
    have hcg : collapseGo false (sanitize_filename s) = sanitize_filename s :=
      (collapseGo_id _ hblank hnadj).1
    have hdw : (sanitize_filename s).dropWhile isPySpace = sanitize_filename s :=
      dropWhile_id_of_headNotWs _ hhead
    have hdt : dropTrailingWs (sanitize_filename s) = sanitize_filename s :=
      dropTrailingWs_id _ hlast
    show stripWs (collapseGo false (removeIllegal (sanitize_filename s))) = _
    rw [hri, hcg]
    unfold stripWs
    rw [hdw, hdt]

/-! Fetcher fixtures. -/

/-- A non-HTML content type used by concrete witnesses. -/
def audioCt : Str := "audio/mpeg".toList

/-- An HTML content type. -/
def htmlCt : Str := "text/html".toList

/-- Holds when the fetch outcome is a response whose content-type contains
`html`, i.e. the early-return branch of lines 117-120 / 332-335 fires. -/
def isHtmlEarly : FetchOutcome → Bool
  | .reqError => false
  | .response ct _ => containsHtml ct

/-- Concrete catalog fixture: artist `a`, album `n`, single song `s`. -/
def albumX : Album := { name := "n".toList, artist := "a".toList, songs := ["s".toList] }

/-- Destination path of the fixture track. -/
def pathX : DiskPath := trackPath ("a".toList) ("n".toList) ("s".toList)

/-- Disk holding exactly a 51200-byte file at the fixture track's path. -/
def disk51200 : Disk := fun p => if p = pathX then some 51200 else none

/-- Backend all of whose requests fail. -/
def failBackend : Backend :=
  { search := fun _ _ => none
    page := fun _ => none
    fetch := fun _ => FetchOutcome.reqError }

/-- The empty disk. -/
def emptyDisk : Disk := fun _ => none

/-- Claim C1: a fetch reporting Success leaves the completed streamed body
at the destination, its size is at least 50 KiB (51200 bytes), and the
content-type did not indicate HTML; a completed non-HTML download below
the threshold is deleted before Failure is reported.  The async fetcher
behaves identically. -/
theorem C1_fetch_integrity (prior : Option Nat) (o : FetchOutcome) :
    ((download_file_sync prior o).1 = true →
      ∃ ct n, o = FetchOutcome.response ct (StreamBody.complete n) ∧
        containsHtml ct = false ∧ 51200 ≤ n ∧
        (download_file_sync prior o).2 = some n) ∧
    (∀ ct n, containsHtml ct = false → n < 51200 →
      download_file_sync prior (FetchOutcome.response ct (StreamBody.complete n)) =
        (false, none)) ∧
    download_file_async prior o = download_file_sync prior o := by
  have h5 : (50 * 1024 : Nat) = 51200 := by norm_num
  refine ⟨?_, ?_, rfl⟩
  · intro h
    match o with
    | .reqError => simp [download_file_sync] at h
    | .response ct body =>
      cases hct : containsHtml ct with
      | true => simp [download_file_sync, hct] at h
      | false =>
        match body with
        | .interrupted k => simp [download_file_sync, hct] at h
        | .complete n =>
          by_cases hn : n < 51200
          · simp [download_file_sync, hct, h5, hn] at h
          · exact ⟨ct, n, rfl, hct, by omega, by simp [download_file_sync, hct, h5, hn]⟩
  · intro ct n hct hn
    simp [download_file_sync, hct, h5, hn]

/-- Claim C1 witness: the integrity theorem applied to a successful
concrete fetch (60000 bytes, audio content-type) and to an undersized one
(51199 bytes). -/
theorem C1_fetch_integrity_witness :
    (∃ ct n, FetchOutcome.response audioCt (StreamBody.complete 60000) =
        FetchOutcome.response ct (StreamBody.complete n) ∧
        containsHtml ct = false ∧ 51200 ≤ n ∧
        (download_file_sync none
          (FetchOutcome.response audioCt (StreamBody.complete 60000))).2 = some n) ∧
    download_file_sync none (FetchOutcome.response audioCt (StreamBody.complete 51199)) =
      (false, none) :=
  ⟨(C1_fetch_integrity none _).1 (by decide),
   (C1_fetch_integrity none FetchOutcome.reqError).2.1 audioCt 51199 (by decide) (by decide)⟩

/-- Claim C2 counterexample: an invocation of the fetcher that returns
Failure on an HTML content-type while a 51200-byte file already sits at
the destination leaves that file in place, so the destination still holds
a file after the Failure return. -/
theorem C2_counterexample :
    (download_file_sync (some 51200)
      (FetchOutcome.response htmlCt (StreamBody.complete 0))).1 = false ∧
    (download_file_sync (some 51200)
      (FetchOutcome.response htmlCt (StreamBody.complete 0))).2 = some 51200 := by
  decide

/-- Claim C2 as amended: a Failure return never leaves a newly written
artifact.  Outside the HTML early return the destination holds no file at
all afterwards (any partial artifact, and even a pre-existing file, is
deleted); in the HTML early-return case the fetcher returns before
writing and the destination holds exactly what it held before the call.
The async fetcher behaves identically. -/
theorem C2_failure_cleanup_amended (prior : Option Nat) (o : FetchOutcome)
    (h : (download_file_sync prior o).1 = false) :
    (download_file_sync prior o).2 = (if isHtmlEarly o then prior else none) ∧
    (download_file_async prior o).2 = (if isHtmlEarly o then prior else none) := by
  have h5 : (50 * 1024 : Nat) = 51200 := by norm_num
  have hs : (download_file_sync prior o).2 = (if isHtmlEarly o then prior else none) := by
    match o with
    | .reqError => simp [download_file_sync, isHtmlEarly]
    | .response ct body =>
      cases hct : containsHtml ct with
      | true => simp [download_file_sync, isHtmlEarly, hct]
      | false =>
        match body with
        | .interrupted k => simp [download_file_sync, isHtmlEarly, hct]
        | .complete n =>
          by_cases hn : n < 51200
          · simp [download_file_sync, isHtmlEarly, hct, h5, hn]
          · simp [download_file_sync, h5, hn, hct] at h
  exact ⟨hs, hs⟩

/-- Claim C2 witness: the amended cleanup theorem applied to a concrete
request error with a pre-existing 5-byte file. -/
theorem C2_failure_cleanup_witness :
    (download_file_sync (some 5) FetchOutcome.reqError).2 =
      (if isHtmlEarly FetchOutcome.reqError then some 5 else none) ∧
    (download_file_async (some 5) FetchOutcome.reqError).2 =
      (if isHtmlEarly FetchOutcome.reqError then some 5 else none) :=
  C2_failure_cleanup_amended (some 5) FetchOutcome.reqError (by decide)

/-- Claim C10: the fetcher accepts a completed non-HTML download of
exactly 50 KiB = 51200 bytes (its size check fails only strictly below the
threshold), while the pre-scan planner's and the per-track skip's validity
test requires strictly more than 51200 bytes; hence a track whose fetched
file is exactly 51200 bytes is re-listed by every subsequent pre-scan and
re-attempted rather than skipped. -/
theorem C10_threshold_gap :
    (∀ prior ct n,
      (download_file_sync prior (FetchOutcome.response ct (StreamBody.complete n))).1 =
        (!containsHtml ct && !(decide (n < 51200)))) ∧
    (∀ n, validSize (some n) = decide (51200 < n)) ∧
    (download_file_sync none (FetchOutcome.response audioCt (StreamBody.complete 51200))).1
      = true ∧
    isValidOnDisk disk51200 pathX = false ∧
    (pre_scan_existing_files disk51200 [albumX]).1 = [albumX] ∧
    (pre_scan_existing_files disk51200 [albumX]).2 = 1 ∧
    (download_single_track failBackend disk51200 ("a".toList) ("n".toList) ("s".toList)).1
      = false := by
  have h5 : (50 * 1024 : Nat) = 51200 := by norm_num
  refine ⟨?_, ?_, by decide, by decide, by decide, by decide, by decide⟩
  · intro prior ct n
    cases hct : containsHtml ct with
    | true => simp [download_file_sync, hct]
    | false =>
      by_cases hn : n < 51200
      · simp [download_file_sync, hct, h5, hn]
      · simp [download_file_sync, hct, h5, hn]
  · intro n
    rfl

/-! Search-policy lemmas. -/

lemma find?_append_first {α : Type} (p : α → Bool) (pre post : List α) (a : α)
    (hpre : ∀ x ∈ pre, p x = false) (ha : p a = true) :
    (pre ++ a :: post).find? p = some a := by
  induction pre with
  | nil => simp [List.find?_cons_of_pos, ha]
  | cons b r ih =>
    have hb : p b = false := hpre b (by simp)
    rw [List.cons_append, List.find?_cons_of_neg _ (by simp [hb])]
    exact ih (fun x hx => hpre x (by simp [hx]))

/-- Claim C7: for every (artist, title) pair and every search response,
search returns the link target of the first track anchor whose visible
text contains both artist and title as case-insensitive substrings; when
no anchor qualifies it falls back to the first track anchor in document
order; and it returns NotFound exactly when the request failed or the
response holds no track anchor. -/
theorem C7_search_policy (artist title : Str) (resp : Option (List Anchor)) :
    (search_track artist title resp = none ↔
      resp = none ∨ ∃ anchors, resp = some anchors ∧ trackLinks anchors = []) ∧
    (∀ anchors pre a post, resp = some anchors →
      trackLinks anchors = pre ++ a :: post →
      (∀ x ∈ pre, anchorTextMatches artist title x = false) →
      anchorTextMatches artist title a = true →
      search_track artist title resp = some (linkUrl a.href)) ∧
    (∀ anchors a rest, resp = some anchors →
      trackLinks anchors = a :: rest →
      (∀ x ∈ trackLinks anchors, anchorTextMatches artist title x = false) →
      search_track artist title resp = some (linkUrl a.href)) := by
  refine ⟨?_, ?_, ?_⟩
  · cases resp with
    | none => simp [search_track]
    | some anchors =>
      constructor
      · intro h
        right
        refine ⟨anchors, rfl, ?_⟩
        cases hfind : (trackLinks anchors).find? (anchorTextMatches artist title) with
        | some l => simp [search_track, hfind] at h
        | none =>
          cases htl : trackLinks anchors with
          | nil => rfl
          | cons a rest =>
            rw [htl] at hfind
            simp [search_track, htl, hfind] at h
      · rintro (h | ⟨anchors', ha, htl⟩)
        · exact absurd h (by simp)
        · have he : anchors = anchors' := Option.some.inj ha
          subst he
          have hfind : (trackLinks anchors).find? (anchorTextMatches artist title) = none := by
            rw [htl]; rfl
          simp [search_track, hfind, htl]
  · intro anchors pre a post ha htl hpre hmatch
    subst ha
    have hfind : (trackLinks anchors).find? (anchorTextMatches artist title) = some a := by
      rw [htl]
      exact find?_append_first _ pre post a hpre hmatch
    simp [search_track, hfind]
  · intro anchors a rest ha htl hall
    subst ha
    have hfind : (trackLinks anchors).find? (anchorTextMatches artist title) = none :=
      List.find?_eq_none.mpr (fun x hx => by simp [hall x hx])
    rw [htl] at hfind
    simp [search_track, htl, hfind]

/-- Concrete search fixture: one track anchor whose text matches artist
`a` and title `b`. -/
def anchorW : Anchor := { href := "/track/1".toList, text := "A - b".toList }

/-- Claim C7 witness: the search policy applied to a concrete response
with a single matching track anchor. -/
theorem C7_search_policy_witness :
    search_track ("a".toList) ("b".toList) (some [anchorW]) = some (linkUrl anchorW.href) :=
  (C7_search_policy ("a".toList) ("b".toList) (some [anchorW])).2.1 [anchorW] [] anchorW []
    rfl (by decide) (by simp) (by decide)

/-! Pre-scan lemmas. -/

/-- Total number of tracks in a work list. -/
def sumSongs (w : List Album) : Nat := (w.map (fun a => a.songs.length)).sum

/-- Number of tracks of the catalog already valid on disk. -/
def validCount (d : Disk) (albums : List Album) : Nat :=
  (albums.map (fun a =>
    a.songs.countP (fun s => isValidOnDisk d (trackPath a.artist a.name s)))).sum

lemma length_filter_not_countP (p : Str → Bool) (l : List Str) :
    (l.filter (fun x => !(p x))).length = l.length - l.countP p := by
  induction l with
  | nil => rfl
  | cons a l ih =>
    have hc : l.countP p ≤ l.length := List.countP_le_length p
    cases hp : p a with
    | true =>
      rw [List.countP_cons_of_pos _ _ (by simp [hp])]
      have hf : List.filter (fun x => !(p x)) (a :: l) = List.filter (fun x => !(p x)) l := by
        simp [List.filter_cons, hp]
      rw [hf, List.length_cons, ih]
      omega
    | false =>
      rw [List.countP_cons_of_neg _ _ (by simp [hp])]
      have hf : List.filter (fun x => !(p x)) (a :: l)
          = a :: List.filter (fun x => !(p x)) l := by
        simp [List.filter_cons, hp]
      rw [hf, List.length_cons, List.length_cons, ih]
      omega

lemma prescan_sum (d : Disk) (albums : List Album) :
    validCount d albums ≤ sumSongs albums ∧
    sumSongs (pre_scan_existing_files d albums).1 = sumSongs albums - validCount d albums := by
  induction albums with
  | nil => exact ⟨Nat.le_refl 0, rfl⟩
  | cons a rest ih =>
    obtain ⟨ih1, ih2⟩ := ih
    have hk : a.songs.countP (fun s => isValidOnDisk d (trackPath a.artist a.name s))
        ≤ a.songs.length := List.countP_le_length _
    have hrem : (a.songs.filter
          (fun s => !(isValidOnDisk d (trackPath a.artist a.name s)))).length
        = a.songs.length
          - a.songs.countP (fun s => isValidOnDisk d (trackPath a.artist a.name s)) :=
      length_filter_not_countP _ _
    constructor
    · simp only [validCount, sumSongs, List.map_cons, List.sum_cons] at ih1 ⊢
      omega
    · simp only [pre_scan_existing_files, List.filterMap_cons] at ih2 ⊢
      by_cases hre : (a.songs.filter
          (fun s => !(isValidOnDisk d (trackPath a.artist a.name s)))).isEmpty = true
      · have hnil : a.songs.filter
            (fun s => !(isValidOnDisk d (trackPath a.artist a.name s))) = [] :=
          List.isEmpty_iff.mp hre
        have hz : (a.songs.filter
            (fun s => !(isValidOnDisk d (trackPath a.artist a.name s)))).length = 0 := by
          rw [hnil]
          rfl
        simp only [hre, if_true]
        simp only [sumSongs, validCount, List.map_cons, List.sum_cons] at ih1 ih2 ⊢
        omega
      · simp only [hre, if_false, Bool.false_eq_true]
        simp only [sumSongs, validCount, List.map_cons, List.sum_cons] at ih1 ih2 ⊢
        omega

lemma prescan_no_empty (d : Disk) (albums : List Album) :
    ((pre_scan_existing_files d albums).1).all (fun a => !a.songs.isEmpty) = true := by
  simp only [pre_scan_existing_files, List.all_eq_true]
  intro a ha
  obtain ⟨a0, _, hfa⟩ := List.mem_filterMap.mp ha
  by_cases hre : (a0.songs.filter
      (fun s => !(isValidOnDisk d (trackPath a0.artist a0.name s)))).isEmpty = true
  · simp [hre] at hfa
  · simp only [hre, if_false, Bool.false_eq_true, Option.some.injEq] at hfa
    subst hfa
    simpa using hre

/-- Claim C4: for a catalog of N tracks of which K are already valid on
disk, the pre-scan planner returns the count N-K, its reduced work list
contains exactly N-K tracks, and no album whose track list is fully valid
appears in it (every emitted album keeps at least one track).  The async
planner is identical. -/
theorem C4_prescan_resumability (d : Disk) (albums : List Album) :
    (pre_scan_existing_files d albums).2 = sumSongs albums - validCount d albums ∧
    sumSongs (pre_scan_existing_files d albums).1 = sumSongs albums - validCount d albums ∧
    ((pre_scan_existing_files d albums).1).all (fun a => !a.songs.isEmpty) = true ∧
    pre_scan_existing_files_async d albums = pre_scan_existing_files d albums :=
  ⟨rfl, (prescan_sum d albums).2, prescan_no_empty d albums, rfl⟩

/-! Tally lemmas. -/

lemma tally_sync_shift (rs : List (Except Unit (Bool × Str))) :
    ∀ acc : Nat × Nat, rs.foldl tallyStepSync acc =
      (acc.1 + (tally_results_sync rs).1, acc.2 + (tally_results_sync rs).2) := by
  induction rs with
  | nil =>
    intro acc
    simp [tally_results_sync]
  | cons r rs ih =>
    intro acc
    simp only [tally_results_sync, List.foldl_cons]
    rw [ih (tallyStepSync acc r), ih (tallyStepSync (0, 0) r)]
    match r with
    | Except.ok (true, x) => simp only [tallyStepSync, Prod.mk.injEq]; omega
    | Except.ok (false, x) => simp only [tallyStepSync, Prod.mk.injEq]; omega
    | Except.error e => simp only [tallyStepSync, Prod.mk.injEq]; omega

lemma tally_sync_length (rs : List (Except Unit (Bool × Str))) :
    (tally_results_sync rs).1 + (tally_results_sync rs).2 = rs.length := by
  induction rs with
  | nil => rfl
  | cons r rs ih =>
    have h := tally_sync_shift rs (tallyStepSync (0, 0) r)
    have hgoal : tally_results_sync (r :: rs)
        = rs.foldl tallyStepSync (tallyStepSync (0, 0) r) := rfl
    rw [hgoal, h, List.length_cons]
    match r with
    | Except.ok (true, x) => simp only [tallyStepSync]; omega
    | Except.ok (false, x) => simp only [tallyStepSync]; omega
    | Except.error e => simp only [tallyStepSync]; omega

lemma tally_async_eq_sync (rs : List (Except Unit (Bool × Str))) :
    tally_results_async rs = tally_results_sync rs := by
  have hstep : tallyStepAsync = tallyStepSync := by
    funext acc r
    match r with
    | Except.ok (true, x) => rfl
    | Except.ok (false, x) => rfl
    | Except.error e => rfl
  simp [tally_results_async, tally_results_sync, hstep]

lemma run_track_units_length (track : Disk → Str → Bool × Disk) :
    ∀ (ss : List Str) (d : Disk), (run_track_units track d ss).1.length = ss.length := by
  intro ss
  induction ss with
  | nil => intro d; rfl
  | cons s ss ih =>
    intro d
    simp only [run_track_units, List.length_cons]
    rw [ih]

/-- Claim C5: injecting one raising track unit anywhere into a batch's
result list adds exactly one failure and leaves the success count
unchanged (the siblings' tallies are untouched); every scheduled unit is
tallied, so successes plus failures equal the number of scheduled units
both for raw result lists and for a whole album run; the async collection
loop tallies identically to the thread-parallel one. -/
theorem C5_failure_isolation :
    (∀ rs1 rs2 : List (Except Unit (Bool × Str)),
      (tally_results_sync (rs1 ++ Except.error () :: rs2)).1
        = (tally_results_sync (rs1 ++ rs2)).1 ∧
      (tally_results_sync (rs1 ++ Except.error () :: rs2)).2
        = (tally_results_sync (rs1 ++ rs2)).2 + 1) ∧
    (∀ rs : List (Except Unit (Bool × Str)),
      (tally_results_sync rs).1 + (tally_results_sync rs).2 = rs.length) ∧
    (∀ rs : List (Except Unit (Bool × Str)),
      tally_results_async rs = tally_results_sync rs) ∧
    (∀ (b : Backend) (d : Disk) (a : Album),
      (download_album_tracks_concurrent b d a).1.1
        + (download_album_tracks_concurrent b d a).1.2 = a.songs.length) := by
  refine ⟨?_, tally_sync_length, tally_async_eq_sync, ?_⟩
  · intro rs1 rs2
    have h1 : tally_results_sync (rs1 ++ Except.error () :: rs2)
        = (rs1 ++ Except.error () :: rs2).foldl tallyStepSync (0, 0) := rfl
    have h2 : tally_results_sync (rs1 ++ rs2)
        = (rs1 ++ rs2).foldl tallyStepSync (0, 0) := rfl
    rw [h1, h2, List.foldl_append, List.foldl_append, List.foldl_cons]
    rw [tally_sync_shift rs2 (tallyStepSync (rs1.foldl tallyStepSync (0, 0)) (Except.error ())),
      tally_sync_shift rs2 (rs1.foldl tallyStepSync (0, 0))]
    refine ⟨?_, ?_⟩
    · simp [tallyStepSync]
    · simp only [tallyStepSync]
      omega
  · intro b d a
    have hlen := run_track_units_length
      (fun d' s => download_single_track b d' a.artist a.name s) a.songs d
    have hsum := tally_sync_length
      (run_track_units (fun d' s => download_single_track b d' a.artist a.name s) d a.songs).1
    have hdl : (download_album_tracks_concurrent b d a).1 = tally_results_sync
        (run_track_units (fun d' s => download_single_track b d' a.artist a.name s)
          d a.songs).1 := rfl
    rw [hdl]
    omega

/-! Semaphore lemmas. -/

lemma semStep_bounds (cfg : AsyncConfig) (s s' : SemState) (e : SemEvent)
    (h : semStep cfg s e = some s')
    (h1 : s.reqInFlight ≤ cfg.max_concurrent_requests)
    (h2 : s.dlInFlight ≤ cfg.max_concurrent_downloads) :
    s'.reqInFlight ≤ cfg.max_concurrent_requests ∧
    s'.dlInFlight ≤ cfg.max_concurrent_downloads := by
  match e with
  | SemEvent.acqReq =>
    by_cases hen : s.reqInFlight < cfg.max_concurrent_requests
    · simp only [semStep, hen, if_true, Option.some.injEq] at h
      subst h
      constructor
      · simpa using hen
      · simpa using h2
    · simp [semStep, hen] at h
  | SemEvent.relReq =>
    match hs : s.reqInFlight with
    | 0 => simp [semStep, hs] at h
    | n + 1 =>
      simp only [semStep, hs, Option.some.injEq] at h
      subst h
      constructor
      · simp only []
        omega
      · simpa using h2
  | SemEvent.acqDl =>
    by_cases hen : s.dlInFlight < cfg.max_concurrent_downloads
    · simp only [semStep, hen, if_true, Option.some.injEq] at h
      subst h
      constructor
      · simpa using h1
      · simpa using hen
    · simp [semStep, hen] at h
  | SemEvent.relDl =>
    match hs : s.dlInFlight with
    | 0 => simp [semStep, hs] at h
    | n + 1 =>
      simp only [semStep, hs, Option.some.injEq] at h
      subst h
      constructor
      · simpa using h1
      · simp only []
        omega

lemma runSem_bounds (cfg : AsyncConfig) :
    ∀ (es : List SemEvent) (s s' : SemState),
      runSem cfg s es = some s' →
      s.reqInFlight ≤ cfg.max_concurrent_requests →
      s.dlInFlight ≤ cfg.max_concurrent_downloads →
      s'.reqInFlight ≤ cfg.max_concurrent_requests ∧
      s'.dlInFlight ≤ cfg.max_concurrent_downloads := by
  intro es
  induction es with
  | nil =>
    intro s s' h h1 h2
    simp only [runSem, Option.some.injEq] at h
    subst h
    exact ⟨h1, h2⟩
  | cons e es ih =>
    intro s s' h h1 h2
    cases hstep : semStep cfg s e with
    | none => simp [runSem, hstep] at h
    | some s1 =>
      simp only [runSem, hstep] at h
      obtain ⟨g1, g2⟩ := semStep_bounds cfg s s1 e hstep h1 h2
      exact ih s1 s' h g1 g2

/-- Claim C8 counterexample: the configuration constructed by `async_main`
has download bound 10 and request bound 5, so the download bound is not
strictly smaller than the search/resolve request bound (and the
constructor defaults, 10 and 10, are not strict either). -/
theorem C8_counterexample_bounds :
    async_main_config.max_concurrent_downloads = 10 ∧
    async_main_config.max_concurrent_requests = 5 ∧
    decide (async_main_config.max_concurrent_downloads
      < async_main_config.max_concurrent_requests) = false ∧
    decide (asyncInitDefaults.max_concurrent_downloads
      < asyncInitDefaults.max_concurrent_requests) = false := by
  decide

/-- Claim C8 as amended: along every semaphore-respecting run from the
idle state the in-flight search/resolve count never exceeds the request
bound and the in-flight download count never exceeds the download bound;
the two counters are independent (request events leave the download
counter unchanged, download events the request counter); but in the
configuration used by `async_main` the request bound (5), not the
download bound (10), is the strictly tighter one. -/
theorem C8_bounded_concurrency_amended (es : List SemEvent) (s : SemState)
    (h : semRun async_main_config es = some s) :
    s.reqInFlight ≤ async_main_config.max_concurrent_requests ∧
    s.dlInFlight ≤ async_main_config.max_concurrent_downloads ∧
    (∀ (cfg : AsyncConfig) (t t' : SemState),
      semStep cfg t SemEvent.acqReq = some t' → t'.dlInFlight = t.dlInFlight) ∧
    (∀ (cfg : AsyncConfig) (t t' : SemState),
      semStep cfg t SemEvent.relReq = some t' → t'.dlInFlight = t.dlInFlight) ∧
    (∀ (cfg : AsyncConfig) (t t' : SemState),
      semStep cfg t SemEvent.acqDl = some t' → t'.reqInFlight = t.reqInFlight) ∧
    (∀ (cfg : AsyncConfig) (t t' : SemState),
      semStep cfg t SemEvent.relDl = some t' → t'.reqInFlight = t.reqInFlight) ∧
    async_main_config.max_concurrent_requests < async_main_config.max_concurrent_downloads := by
  obtain ⟨g1, g2⟩ := runSem_bounds async_main_config es
    { reqInFlight := 0, dlInFlight := 0 } s h (by decide) (by decide)
  refine ⟨g1, g2, ?_, ?_, ?_, ?_, by decide⟩
  · intro cfg t t' ht
    by_cases hen : t.reqInFlight < cfg.max_concurrent_requests
    · simp only [semStep, hen, if_true, Option.some.injEq] at ht
      subst ht
      rfl
    · simp [semStep, hen] at ht
  · intro cfg t t' ht
    match hs : t.reqInFlight with
    | 0 => simp [semStep, hs] at ht
    | n + 1 =>
      simp only [semStep, hs, Option.some.injEq] at ht
      subst ht
      rfl
  · intro cfg t t' ht
    by_cases hen : t.dlInFlight < cfg.max_concurrent_downloads
    · simp only [semStep, hen, if_true, Option.some.injEq] at ht
      subst ht
      rfl
    · simp [semStep, hen] at ht
  · intro cfg t t' ht
    match hs : t.dlInFlight with
    | 0 => simp [semStep, hs] at ht
    | n + 1 =>
      simp only [semStep, hs, Option.some.injEq] at ht
      subst ht
      rfl

/-- Claim C8 witness: the amended bound theorem applied to the concrete
run that acquires one request slot and one download slot. -/
theorem C8_bounded_concurrency_witness :
    ({ reqInFlight := 1, dlInFlight := 1 } : SemState).reqInFlight
      ≤ async_main_config.max_concurrent_requests ∧
    ({ reqInFlight := 1, dlInFlight := 1 } : SemState).dlInFlight
      ≤ async_main_config.max_concurrent_downloads ∧
    (∀ (cfg : AsyncConfig) (t t' : SemState),
      semStep cfg t SemEvent.acqReq = some t' → t'.dlInFlight = t.dlInFlight) ∧
    (∀ (cfg : AsyncConfig) (t t' : SemState),
      semStep cfg t SemEvent.relReq = some t' → t'.dlInFlight = t.dlInFlight) ∧
    (∀ (cfg : AsyncConfig) (t t' : SemState),
      semStep cfg t SemEvent.acqDl = some t' → t'.reqInFlight = t.reqInFlight) ∧
    (∀ (cfg : AsyncConfig) (t t' : SemState),
      semStep cfg t SemEvent.relDl = some t' → t'.reqInFlight = t.reqInFlight) ∧
    async_main_config.max_concurrent_requests < async_main_config.max_concurrent_downloads :=
  C8_bounded_concurrency_amended [SemEvent.acqReq, SemEvent.acqDl]
    { reqInFlight := 1, dlInFlight := 1 } (by decide)

/-! Disk-effect lemmas for the pipeline. -/

lemma download_single_track_disk (b : Backend) (d : Disk) (t : TrackRef) (q : DiskPath) :
    (download_single_track b d t.artist t.album t.song).2 q
      = (if q = t.path then chainF b t (d t.path) else d q) := by
  cases hv : validSize (d t.path) with
  | true =>
    have hvv : isValidOnDisk d (trackPath t.artist t.album t.song) = true := hv
    simp only [download_single_track, hvv, if_true, chainF, hv]
    by_cases hq : q = t.path
    · rw [if_pos hq, hq]
    · rw [if_neg hq]
  | false =>
    have hvv : isValidOnDisk d (trackPath t.artist t.album t.song) = false := hv
    simp only [download_single_track, hvv, Bool.false_eq_true, if_false, chainF, hv]
    cases hs : search_track t.artist t.song (b.search t.artist t.song) with
    | none =>
      by_cases hq : q = t.path
      · rw [if_pos hq, hq]
      · rw [if_neg hq]
    | some turl =>
      cases hr : get_download_link (b.page turl) with
      | none =>
        simp only [hr]
        by_cases hq : q = t.path
        · rw [if_pos hq, hq]
        · rw [if_neg hq]
      | some durl =>
        simp only [hr]
        rfl

lemma stepDisk_eq (b : Backend) (d : Disk) (t : TrackRef) :
    stepDisk b d t = fun q => if q = t.path then chainF b t (d t.path) else d q := by
  funext q
  exact download_single_track_disk b d t q

lemma foldFAt_cons (b : Backend) (t : TrackRef) (l : List TrackRef) (v : Option Nat) :
    foldFAt b (t :: l) v = foldFAt b l (chainF b t v) := rfl

lemma runTracks_at (b : Backend) :
    ∀ (ts : List TrackRef) (d : Disk) (p : DiskPath),
      runTracks b d ts p = foldFAt b (tracksAt p ts) (d p) := by
  intro ts
  induction ts with
  | nil => intro d p; rfl
  | cons t ts ih =>
    intro d p
    have hrun : runTracks b d (t :: ts) = runTracks b (stepDisk b d t) ts := rfl
    rw [hrun, ih (stepDisk b d t) p]
    by_cases hq : t.path = p
    · have htr : tracksAt p (t :: ts) = t :: tracksAt p ts := by
        simp [tracksAt, List.filter_cons, hq]
      rw [htr, foldFAt_cons]
      congr 1
      rw [stepDisk_eq]
      show (if p = t.path then chainF b t (d t.path) else d p) = chainF b t (d p)
      rw [if_pos hq.symm, hq]
    · have htr : tracksAt p (t :: ts) = tracksAt p ts := by
        simp [tracksAt, List.filter_cons, hq]
      rw [htr]
      congr 1
      rw [stepDisk_eq]
      show (if p = t.path then chainF b t (d t.path) else d p) = d p
      rw [if_neg (fun h => hq h.symm)]

lemma chainF_valid (b : Backend) (t : TrackRef) (v : Option Nat)
    (h : validSize v = true) : chainF b t v = v := by
  simp [chainF, h]

lemma foldFAt_valid (b : Backend) :
    ∀ (l : List TrackRef) (v : Option Nat), validSize v = true → foldFAt b l v = v := by
  intro l
  induction l with
  | nil => intro v _; rfl
  | cons t l ih =>
    intro v h
    rw [foldFAt_cons, chainF_valid b t v h]
    exact ih v h

lemma chainF_shape (b : Backend) (t : TrackRef) :
    (∀ v, validSize v = false → chainF b t v = v) ∨
    (∃ c, ∀ v, validSize v = false → chainF b t v = c) := by
  cases hs : search_track t.artist t.song (b.search t.artist t.song) with
  | none =>
    left
    intro v hv
    simp [chainF, hv, hs]
  | some turl =>
    cases hr : get_download_link (b.page turl) with
    | none =>
      left
      intro v hv
      simp [chainF, hv, hs, hr]
    | some durl =>
      cases hf : b.fetch durl with
      | reqError =>
        right
        exact ⟨none, fun v hv => by simp [chainF, hv, hs, hr, hf, download_file_sync]⟩
      | response ct body =>
        cases hct : containsHtml ct with
        | true =>
          left
          intro v hv
          simp [chainF, hv, hs, hr, hf, download_file_sync, hct]
        | false =>
          match body with
          | StreamBody.interrupted k =>
            right
            exact ⟨none, fun v hv => by
              simp [chainF, hv, hs, hr, hf, download_file_sync, hct]⟩
          | StreamBody.complete n =>
            by_cases hn : n < 50 * 1024
            · right
              exact ⟨none, fun v hv => by
                simp [chainF, hv, hs, hr, hf, download_file_sync, hct, hn]⟩
            · right
              exact ⟨some n, fun v hv => by
                simp [chainF, hv, hs, hr, hf, download_file_sync, hct, hn]⟩

lemma foldFAt_replay (b : Backend) :
    ∀ (l : List TrackRef) (v : Option Nat),
      validSize (foldFAt b l v) = false →
      foldFAt b l (foldFAt b l v) = foldFAt b l v := by
  intro l
  induction l with
  | nil => intro v _; rfl
  | cons t l ih =>
    intro v hw
    simp only [foldFAt_cons] at hw ⊢
    rcases chainF_shape b t with hid | ⟨c, hc⟩
    · rw [hid _ hw]
      exact ih (chainF b t v) hw
    · cases hv : validSize v with
      | true =>
        have h1 : chainF b t v = v := chainF_valid b t v hv
        rw [h1, foldFAt_valid b l v hv] at hw
        simp [hv] at hw
      | false =>
        have h1 : chainF b t v = c := hc v hv
        rw [h1] at hw ⊢
        rw [hc _ hw]

lemma run_track_units_disk (track : Disk → Str → Bool × Disk) :
    ∀ (ss : List Str) (d : Disk),
      (run_track_units track d ss).2 = ss.foldl (fun d' s => (track d' s).2) d := by
  intro ss
  induction ss with
  | nil => intro d; rfl
  | cons s ss ih =>
    intro d
    simp only [run_track_units, List.foldl_cons]
    exact ih (track d s).2

lemma album_disk (b : Backend) (a : Album) :
    ∀ (d : Disk), (download_album_tracks_concurrent b d a).2
      = runTracks b d (a.songs.map (fun s =>
          ({ artist := a.artist, album := a.name, song := s } : TrackRef))) := by
  intro d
  have h1 : (download_album_tracks_concurrent b d a).2
      = (run_track_units (fun d' s => download_single_track b d' a.artist a.name s)
          d a.songs).2 := rfl
  rw [h1, run_track_units_disk]
  rw [runTracks, List.foldl_map]
  rfl

lemma runTracks_append (b : Backend) (l1 l2 : List TrackRef) (d : Disk) :
    runTracks b d (l1 ++ l2) = runTracks b (runTracks b d l1) l2 := by
  simp [runTracks, List.foldl_append]

lemma process_disk (b : Backend) :
    ∀ (w : List Album) (acc : Nat × Nat) (d : Disk),
      (w.foldl (fun acc' a =>
        let r := download_album_tracks_concurrent b acc'.2 a
        ((acc'.1.1 + r.1.1, acc'.1.2 + r.1.2), r.2)) (acc, d)).2
      = runTracks b d (allTracks w) := by
  intro w
  induction w with
  | nil => intro acc d; rfl
  | cons a rest ih =>
    intro acc d
    simp only [List.foldl_cons]
    rw [ih]
    have hall : allTracks (a :: rest)
        = a.songs.map (fun s => ({ artist := a.artist, album := a.name, song := s } : TrackRef))
          ++ allTracks rest := rfl
    rw [hall, runTracks_append, ← album_disk]

lemma sync_main_disk (b : Backend) (d : Disk) (albums : List Album) :
    (sync_main_run b d albums).2
      = runTracks b d (allTracks (pre_scan_existing_files d albums).1) := by
  exact process_disk b (pre_scan_existing_files d albums).1 (0, 0) d

lemma allTracks_cons (a : Album) (w : List Album) :
    allTracks (a :: w)
      = a.songs.map (fun s => ({ artist := a.artist, album := a.name, song := s } : TrackRef))
        ++ allTracks w := rfl

lemma allTracks_prescan (d : Disk) :
    ∀ albums : List Album,
      allTracks (pre_scan_existing_files d albums).1
        = (allTracks albums).filter
            (fun t => !(isValidOnDisk d (trackPath t.artist t.album t.song))) := by
  intro albums
  induction albums with
  | nil => rfl
  | cons a rest ih =>
    simp only [pre_scan_existing_files, List.filterMap_cons] at ih ⊢
    rw [allTracks_cons, List.filter_append]
    have hmap : (a.songs.map (fun s =>
          ({ artist := a.artist, album := a.name, song := s } : TrackRef))).filter
            (fun t => !(isValidOnDisk d (trackPath t.artist t.album t.song)))
        = (a.songs.filter
            (fun s => !(isValidOnDisk d (trackPath a.artist a.name s)))).map
          (fun s => ({ artist := a.artist, album := a.name, song := s } : TrackRef)) := by
      rw [List.filter_map]
      rfl
    rw [hmap]
    by_cases hre : (a.songs.filter
        (fun s => !(isValidOnDisk d (trackPath a.artist a.name s)))).isEmpty = true
    · have hnil : a.songs.filter
          (fun s => !(isValidOnDisk d (trackPath a.artist a.name s))) = [] :=
        List.isEmpty_iff.mp hre
      simp only [hre, if_true, hnil, List.map_nil, List.nil_append]
      exact ih
    · simp only [hre, if_false, Bool.false_eq_true]
      rw [allTracks_cons, ih]

lemma tracksAt_filter_valid (d : Disk) (p : DiskPath) :
    ∀ ts : List TrackRef,
      tracksAt p (ts.filter
          (fun t => !(isValidOnDisk d (trackPath t.artist t.album t.song))))
        = (if validSize (d p) = true then [] else tracksAt p ts) := by
  intro ts
  induction ts with
  | nil => cases hv : validSize (d p) <;> simp [tracksAt]
  | cons t ts ih =>
    have hpath : trackPath t.artist t.album t.song = t.path := rfl
    by_cases hq : t.path = p
    · have hval : isValidOnDisk d (trackPath t.artist t.album t.song) = validSize (d p) := by
        rw [hpath, hq]
        rfl
      cases hv : validSize (d p) with
      | true =>
        have hcond : (!(isValidOnDisk d (trackPath t.artist t.album t.song))) = false := by
          rw [hval, hv]
          rfl
        rw [List.filter_cons, hcond]
        simp only [Bool.false_eq_true, if_false]
        rw [ih]
        simp [hv]
      | false =>
        have hcond : (!(isValidOnDisk d (trackPath t.artist t.album t.song))) = true := by
          rw [hval, hv]
          rfl
        rw [List.filter_cons, hcond]
        simp only [if_true]
        have htr : tracksAt p (t :: ts.filter
            (fun t' => !(isValidOnDisk d (trackPath t'.artist t'.album t'.song))))
            = t :: tracksAt p (ts.filter
              (fun t' => !(isValidOnDisk d (trackPath t'.artist t'.album t'.song)))) := by
          simp [tracksAt, List.filter_cons, hq]
        rw [htr, ih]
        have htr2 : tracksAt p (t :: ts) = t :: tracksAt p ts := by
          simp [tracksAt, List.filter_cons, hq]
        rw [htr2]
        simp [hv]
    · have htr2 : tracksAt p (t :: ts) = tracksAt p ts := by
        simp [tracksAt, List.filter_cons, hq]
      cases hcond : (!(isValidOnDisk d (trackPath t.artist t.album t.song))) with
      | true =>
        rw [List.filter_cons, hcond]
        simp only [if_true]
        have htr : tracksAt p (t :: ts.filter
            (fun t' => !(isValidOnDisk d (trackPath t'.artist t'.album t'.song))))
            = tracksAt p (ts.filter
              (fun t' => !(isValidOnDisk d (trackPath t'.artist t'.album t'.song)))) := by
          simp [tracksAt, List.filter_cons, hq]
        rw [htr, ih, htr2]
      | false =>
        rw [List.filter_cons, hcond]
        simp only [Bool.false_eq_true, if_false]
        rw [ih, htr2]

lemma prescan_empty_iff (d : Disk) (albums : List Album) :
    (pre_scan_existing_files d albums).1 = [] ↔
      (allTracks albums).all
        (fun t => isValidOnDisk d (trackPath t.artist t.album t.song)) = true := by
  have h1 : (pre_scan_existing_files d albums).1 = [] ↔ ∀ a ∈ albums,
      ((if (a.songs.filter
          (fun s => !(isValidOnDisk d (trackPath a.artist a.name s)))).isEmpty = true
        then none
        else some ({ name := a.name
                     artist := a.artist
                     songs := a.songs.filter
                       (fun s => !(isValidOnDisk d (trackPath a.artist a.name s))) } : Album))
        = none) := by
    simp only [pre_scan_existing_files]
    exact List.filterMap_eq_nil_iff
  rw [h1, List.all_eq_true]
  constructor
  · intro h t ht
    simp only [allTracks, List.mem_flatMap, List.mem_map] at ht
    obtain ⟨a, ha, s, hs, hmk⟩ := ht
    have hfa := h a ha
    by_cases hre : (a.songs.filter
        (fun s' => !(isValidOnDisk d (trackPath a.artist a.name s')))).isEmpty = true
    · have hnil : a.songs.filter
          (fun s' => !(isValidOnDisk d (trackPath a.artist a.name s'))) = [] :=
        List.isEmpty_iff.mp hre
      by_contra hval
      have hmem : s ∈ a.songs.filter
          (fun s' => !(isValidOnDisk d (trackPath a.artist a.name s'))) := by
        rw [List.mem_filter]
        refine ⟨hs, ?_⟩
        subst hmk
        simp only [Bool.not_eq_true'] at hval ⊢
        simpa using hval
      rw [hnil] at hmem
      simp at hmem
    · simp [hre] at hfa
  · intro h a ha
    have hnil : a.songs.filter
        (fun s => !(isValidOnDisk d (trackPath a.artist a.name s))) = [] := by
      rw [List.filter_eq_nil_iff]
      intro s hs
      have ht : ({ artist := a.artist, album := a.name, song := s } : TrackRef)
          ∈ allTracks albums := by
        simp only [allTracks, List.mem_flatMap, List.mem_map]
        exact ⟨a, ha, s, hs, rfl⟩
      have hv := h _ ht
      simp only at hv
      simp [hv]
    simp [hnil]

/-- Claim C3 counterexample: with a stable backend whose search requests
always fail and an empty initial disk, the first pipeline run acquires
nothing, and the reduced work list computed by the second run's pre-scan
is the whole one-album catalog again rather than empty. -/
theorem C3_counterexample_second_worklist :
    (pre_scan_existing_files ((sync_main_run failBackend emptyDisk [albumX]).2) [albumX]).1
      = [albumX] ∧
    (pre_scan_existing_files ((sync_main_run failBackend emptyDisk [albumX]).2) [albumX]).2
      = 1 := by
  decide

/-- Claim C3 as amended: for every catalog, initial disk and fixed backend,
running the pipeline a second time leaves the disk pointwise unchanged
(hence the same final set of valid on-disk files), and the second run's
reduced work list is empty precisely when every track of the catalog is
valid on disk after the first run. -/
theorem C3_idempotence_amended (b : Backend) (d0 : Disk) (albums : List Album) :
    (∀ p, (sync_main_run b (sync_main_run b d0 albums).2 albums).2 p
        = (sync_main_run b d0 albums).2 p) ∧
    ((pre_scan_existing_files (sync_main_run b d0 albums).2 albums).1 = [] ↔
      (allTracks albums).all
        (fun t => isValidOnDisk (sync_main_run b d0 albums).2
          (trackPath t.artist t.album t.song)) = true) := by
  refine ⟨?_, prescan_empty_iff _ albums⟩
  intro p
  have hmain : ∀ d : Disk, (sync_main_run b d albums).2 p
      = foldFAt b (if validSize (d p) = true then []
          else tracksAt p (allTracks albums)) (d p) := by
    intro d
    rw [sync_main_disk, runTracks_at, allTracks_prescan, tracksAt_filter_valid]
  have h1 := hmain d0
  have h2 := hmain (sync_main_run b d0 albums).2
  rw [h2]
  cases hv1 : validSize ((sync_main_run b d0 albums).2 p) with
  | true =>
    rfl
  | false =>
    show foldFAt b (tracksAt p (allTracks albums)) ((sync_main_run b d0 albums).2 p)
        = (sync_main_run b d0 albums).2 p
    by_cases hv0 : validSize (d0 p) = true
    · have hd : (sync_main_run b d0 albums).2 p = d0 p := by
        rw [h1, if_pos hv0]
        rfl
      rw [hd, hv0] at hv1
      exact Bool.noConfusion hv1
    · have h1' : (sync_main_run b d0 albums).2 p
          = foldFAt b (tracksAt p (allTracks albums)) (d0 p) := by
        rw [h1, if_neg hv0]
      rw [h1'] at hv1 ⊢
      exact foldFAt_replay b _ _ hv1

/-! Equivalence of the thread-parallel and cooperative models. -/

lemma album_async_eq (b : Backend) (d : Disk) (a : Album) :
    download_album_tracks_async b d a = download_album_tracks_concurrent b d a := by
  show (tally_results_async (run_track_units
      (fun d' s => download_single_track_async b d' a.artist a.name s) d a.songs).1,
    (run_track_units (fun d' s => download_single_track_async b d' a.artist a.name s)
      d a.songs).2)
    = (tally_results_sync (run_track_units
      (fun d' s => download_single_track b d' a.artist a.name s) d a.songs).1,
    (run_track_units (fun d' s => download_single_track b d' a.artist a.name s)
      d a.songs).2)
  rw [tally_async_eq_sync]
  rfl

lemma process_async_eq (b : Backend) (d : Disk) (w : List Album) :
    process_all_albums_async b d w = w.foldl (fun acc a =>
      let r := download_album_tracks_concurrent b acc.2 a
      ((acc.1.1 + r.1.1, acc.1.2 + r.1.2), r.2)) ((0, 0), d) := by
  have hfun : (fun (acc : (Nat × Nat) × Disk) a =>
      let r := download_album_tracks_async b acc.2 a
      ((acc.1.1 + r.1.1, acc.1.2 + r.1.2), r.2))
      = (fun (acc : (Nat × Nat) × Disk) a =>
      let r := download_album_tracks_concurrent b acc.2 a
      ((acc.1.1 + r.1.1, acc.1.2 + r.1.2), r.2)) := by
    funext acc a
    simp only [album_async_eq]
  simp only [process_all_albums_async, hfun]

/-- Claim C6: under the same fixed assignment of external responses and
the same initial disk, the cooperative-concurrent model and the
thread-parallel model coincide at every layer: search, resolve, fetch, the
per-track unit, the per-album tallies, the global tallies, and the final
disk's set of valid files.  Scheduling is abstracted as the sequential
execution of units in submission order, which fixes the outcome content
(the source's completion order only permutes the tally accumulation). -/
theorem C6_model_equivalence (b : Backend) (d : Disk) (albums : List Album) :
    (∀ (artist title : Str) (resp : Option (List Anchor)),
      search_track_async artist title resp = search_track artist title resp) ∧
    (∀ page : Option (List (List Elem)),
      get_download_link_async page = get_download_link page) ∧
    (∀ (prior : Option Nat) (o : FetchOutcome),
      download_file_async prior o = download_file_sync prior o) ∧
    (∀ (d' : Disk) (artist an song : Str),
      download_single_track_async b d' artist an song
        = download_single_track b d' artist an song) ∧
    (∀ (d' : Disk) (a : Album),
      download_album_tracks_async b d' a = download_album_tracks_concurrent b d' a) ∧
    async_main_run b d albums = sync_main_run b d albums ∧
    (∀ p, isValidOnDisk (async_main_run b d albums).2 p
      = isValidOnDisk (sync_main_run b d albums).2 p) := by
  have hmain : async_main_run b d albums = sync_main_run b d albums := by
    show process_all_albums_async b d (pre_scan_existing_files_async d albums).1
      = sync_main_run b d albums
    have hpre : pre_scan_existing_files_async d albums = pre_scan_existing_files d albums := rfl
    rw [hpre, process_async_eq]
    rfl
  exact ⟨fun _ _ _ => rfl, fun _ => rfl, fun _ _ => rfl, fun _ _ _ _ => rfl,
    fun d' a => album_async_eq b d' a, hmain, fun p => by rw [hmain]⟩
